import Mathlib

/-!
Shallow embedding of the wiktionary-hatsuon core (src/ja.rs, src/parse.rs,
src/infer.rs, src/wikitext.rs) and verification of its specification claims.

Conventions of the embedding:
* Rust `&str`/`String` become Lean `String`; iteration over `chars()` becomes
  recursion over `List Char` (all positional arithmetic in the source happens
  at character boundaries, so character indices are observationally equivalent
  to the source's byte indices).
* Rust `u8`/`usize` become `Nat` (overflow does not occur on the inputs the
  source accepts; the one `try_into::<u8>()` is noted where modelled).
* Fallible code returns `Option`; `assert!`/`unwrap()`/`unreachable!()`
  failures (process aborts) are modelled by a dedicated `abort` outcome where
  the distinction matters, and by `none` inside helper functions where the
  source would panic (each such spot is marked in a comment).
* Loops whose cursor can jump by more than one character take an explicit
  fuel argument; every caller passes fuel exceeding the number of remaining
  characters, so the fuel-exhaustion branch is unreachable.  Keeping the
  definitions structurally recursive lets every concrete run be checked by
  `decide`.
-/

/-! ## ja.rs: character classification -/

/-- `is_ideograph` (src/ja.rs): the six CJK ideograph blocks plus U+3005. -/
def isIdeograph (c : Char) : Bool :=
  (0x4E00 ≤ c.toNat ∧ c.toNat ≤ 0x9FFF)
    ∨ (0x3400 ≤ c.toNat ∧ c.toNat ≤ 0x4DBF)
    ∨ (0x20000 ≤ c.toNat ∧ c.toNat ≤ 0x2A6DF)
    ∨ (0x2A700 ≤ c.toNat ∧ c.toNat ≤ 0x2EBEF)
    ∨ (0x30000 ≤ c.toNat ∧ c.toNat ≤ 0x3134F)
    ∨ (0xF900 ≤ c.toNat ∧ c.toNat ≤ 0xFAFF) ∨ c.toNat = 0x3005

/-- `COMBINING_SOUND_MARK` (src/ja.rs): U+3099–U+309A. -/
def isCombiningSoundMark (c : Char) : Bool :=
  0x3099 ≤ c.toNat ∧ c.toNat ≤ 0x309A

/-- The lead-character test of `try_consume_kana` (src/ja.rs): the hiragana and
katakana base ranges, small-kana supplementary ranges and the YE characters. -/
def isKanaStart (c : Char) : Bool :=
  (0x3041 ≤ c.toNat ∧ c.toNat ≤ 0x3096)  -- HIRA_0
    ∨ (0x309D ≤ c.toNat ∧ c.toNat ≤ 0x309F)  -- HIRA_1
    ∨ (0x30A1 ≤ c.toNat ∧ c.toNat ≤ 0x30FA)  -- KATA_0
    ∨ (0x30FC ≤ c.toNat ∧ c.toNat ≤ 0x30FF)  -- KATA_1
    ∨ c.toNat = 0x1B132 ∨ c.toNat = 0x1B155  -- SMALL_*_KO
    ∨ (0x1B150 ≤ c.toNat ∧ c.toNat ≤ 0x1B152)  -- SMALL_HIRA_WIEO
    ∨ (0x1B164 ≤ c.toNat ∧ c.toNat ≤ 0x1B167)  -- SMALL_KATA_WIEO
    ∨ c.toNat = 0x1B001 ∨ c.toNat = 0x1B121    -- *_YE

/-- `try_consume_kana` (src/ja.rs): recognize `c` as a kana-cluster start and
absorb the immediately following combining sound marks; returns the cluster and
the remaining characters. -/
def tryConsumeKana (c : Char) (rest : List Char) : Option (String × List Char) :=
  if isKanaStart c then
    some (⟨c :: rest.takeWhile isCombiningSoundMark⟩, rest.dropWhile isCombiningSoundMark)
  else
    none

/-- Rust's `char::is_whitespace` (the Unicode `White_Space` property),
used as the `should_ignore` predicate for kanji-table reading cells. -/
def rustWhitespace (c : Char) : Bool :=
  (0x9 ≤ c.toNat ∧ c.toNat ≤ 0xD) ∨ c.toNat = 0x20 ∨ c.toNat = 0x85
    ∨ c.toNat = 0xA0 ∨ c.toNat = 0x1680 ∨ (0x2000 ≤ c.toNat ∧ c.toNat ≤ 0x200A)
    ∨ c.toNat = 0x2028 ∨ c.toNat = 0x2029 ∨ c.toNat = 0x202F
    ∨ c.toNat = 0x205F ∨ c.toNat = 0x3000

/-- One character step of `try_katakanify` (src/ja.rs): the match arms, in
source order.  `none` models the `_ => return None` arm (whitelist rejection);
`some none` models `continue` (ignored character); `some (some c)` pushes `c`. -/
def katakanifyChar (shouldIgnore shouldKeep : Char → Bool) (c : Char) :
    Option (Option Char) :=
  if shouldIgnore c then some none
  else if shouldKeep c then some (some c)
  else if (0x30A1 ≤ c.toNat ∧ c.toNat ≤ 0x30FA) ∨ (0x309A ≤ c.toNat ∧ c.toNat ≤ 0x309C)
      ∨ c.toNat = 0x30FC ∨ (0x1B164 ≤ c.toNat ∧ c.toNat ≤ 0x1B167) then some (some c)
  else if c.toNat = 0x1B121 ∨ c.toNat = 0x1B001 then some (some (Char.ofNat 0x1B121))
  else if c.toNat = 0x1B132 ∨ c.toNat = 0x1B155 then some (some (Char.ofNat 0x1B155))
  else if 0x3041 ≤ c.toNat ∧ c.toNat ≤ 0x3096 then some (some (Char.ofNat (c.toNat + 0x60)))
  else if 0x1B150 ≤ c.toNat ∧ c.toNat ≤ 0x1B152 then some (some (Char.ofNat (c.toNat + 0x14)))
  else if c.toNat = 0x309D ∨ c.toNat = 0x30FD then some (some (Char.ofNat 0x30FD))
  else if c.toNat = 0x309E ∨ c.toNat = 0x30FE then some (some (Char.ofNat 0x30FE))
  else none

/-- The loop of `try_katakanify` over the remaining characters. -/
def katakanifyGo (shouldIgnore shouldKeep : Char → Bool) : List Char → Option (List Char)
  | [] => some []
  | c :: t =>
    match katakanifyChar shouldIgnore shouldKeep c with
    | none => none
    | some none => katakanifyGo shouldIgnore shouldKeep t
    | some (some c2) => (katakanifyGo shouldIgnore shouldKeep t).map (c2 :: ·)

/-- `try_katakanify` (src/ja.rs): strict-whitelist katakana normalization under
the two caller-supplied predicates. -/
def tryKatakanify (reading : String) (shouldIgnore shouldKeep : Char → Bool) :
    Option String :=
  (katakanifyGo shouldIgnore shouldKeep reading.data).map (⟨·⟩)

/-- `compute_duration` (src/ja.rs): mora count of a presumed-katakana string;
small vowels/glides (ァィゥェォ ャュョ ヮ and U+1B164–U+1B166) do not count. -/
def computeDuration (kataString : String) : Nat :=
  kataString.data.countP fun kata =>
    ¬(kata.toNat = 0x30A1 ∨ kata.toNat = 0x30A3 ∨ kata.toNat = 0x30A5
      ∨ kata.toNat = 0x30A7 ∨ kata.toNat = 0x30A9 ∨ kata.toNat = 0x30E3
      ∨ kata.toNat = 0x30E5 ∨ kata.toNat = 0x30E7 ∨ kata.toNat = 0x30EE
      ∨ (0x1B164 ≤ kata.toNat ∧ kata.toNat ≤ 0x1B166))

/-- Outcome of a kana transform: success, an explicit failure (a `None` in the
source), or a process abort (an `unimplemented!()` arm or a failed `unwrap`).
The aborts are reachable: a ー (U+30FC) or ヽ/ヾ cluster can sit in the
lookback buffer and reach the transforms' unhandled ranges. -/
inductive KRes (α : Type) where
  | ok (a : α)
  | fail
  | abort
deriving DecidableEq

/-- `reiterate_seion` (src/ja.rs): reproduce a katakana syllable with its
dakuten removed.  The source returns a plain `char` and cannot fail; its
`unimplemented!()` arms (code points at or below U+30A0 or at or above
U+30FB, e.g. a ー cluster) and the `unwrap` on an empty cluster abort the
process, modelled as `.abort`. -/
def reiterateSeion (last : String) : KRes Char :=
  match last.data with
  | [] => .abort  -- `.next().unwrap()` panics in the source
  | c :: _ =>
    let n := c.toNat
    if (0x30A1 ≤ n ∧ n ≤ 0x30AA) ∨ n = 0x30C3 ∨ (0x30CA ≤ n ∧ n ≤ 0x30CE)
        ∨ (0x30DE ≤ n ∧ n ≤ 0x30F3) ∨ n = 0x30F5 ∨ n = 0x30F6 then .ok c
    else if 0x30AB ≤ n ∧ n ≤ 0x30C2 then
      if ¬(n % 2 = 0) then .ok c else .ok (Char.ofNat (n - 1))
    else if 0x30CF ≤ n ∧ n ≤ 0x30DD then .ok (Char.ofNat (n - (n - 0x30CF) % 3))
    else if 0x30C4 ≤ n ∧ n ≤ 0x30C9 then
      if n % 2 = 0 then .ok c else .ok (Char.ofNat (n - 1))
    else if n = 0x30F4 then .ok (Char.ofNat 0x30A6)
    else if 0x30F7 ≤ n ∧ n ≤ 0x30FA then .ok (Char.ofNat (n - 8))
    else .abort  -- `unimplemented!()` panics in the source

/-- `reiterate_dakuon` (src/ja.rs): reproduce a katakana syllable, attempting
to attach a dakuten; `.fail` for the syllables with no voiced counterpart (the
explicit `return None` arm).  The `unimplemented!()` arms (code points at or
below U+30A0 or at or above U+30FB, e.g. a ー cluster) and the `unwrap` on an
empty cluster abort the process, modelled as `.abort`. -/
def reiterateDakuon (last : String) : KRes Char :=
  match last.data with
  | [] => .abort  -- `.next().unwrap()` panics in the source
  | c :: _ =>
    let n := c.toNat
    if (0x30A1 ≤ n ∧ n ≤ 0x30A5) ∨ (0x30A7 ≤ n ∧ n ≤ 0x30AA) ∨ n = 0x30C3
        ∨ (0x30CA ≤ n ∧ n ≤ 0x30CE) ∨ (0x30DE ≤ n ∧ n ≤ 0x30EE)
        ∨ n = 0x30F3 ∨ n = 0x30F5 ∨ n = 0x30F6 then .fail
    else if n = 0x30A6 ∨ n = 0x30F4 then .ok (Char.ofNat 0x30F4)
    else if 0x30AB ≤ n ∧ n ≤ 0x30C2 then
      if n % 2 = 0 then .ok c else .ok (Char.ofNat (n + 1))
    else if 0x30CF ≤ n ∧ n ≤ 0x30DD then .ok (Char.ofNat (n + (2 - (n - 0x30CF) % 3)))
    else if 0x30C4 ≤ n ∧ n ≤ 0x30C9 then
      if ¬(n % 2 = 0) then .ok c else .ok (Char.ofNat (n + 1))
    else if 0x30EF ≤ n ∧ n ≤ 0x30F2 then .ok (Char.ofNat (n + 8))
    else if 0x30F7 ≤ n ∧ n ≤ 0x30FA then .ok c
    else .abort  -- `unimplemented!()` panics in the source

/-- The peek loop of `reiterate` (src/ja.rs): how many further bare iteration
marks (ヽ false, ヾ true) immediately follow, read through a clone of the
iterator.  A mark with an attached combining sound mark is a different cluster
and stops the chain.  Fuel exceeds the list length at every call site. -/
def peekMarks : Nat → List Char → List Bool
  | 0, _ => []
  | _ + 1, [] => []
  | fuel + 1, c :: t =>
    match tryConsumeKana c t with
    | some (k, t2) =>
      if k = "ヽ" then false :: peekMarks fuel t2
      else if k = "ヾ" then true :: peekMarks fuel t2
      else []
    | none => []

/-- The transform loop of `reiterate` (src/ja.rs) over the zipped
(cluster, voiced?) pairs, left to right: a dakuon `.fail` fails the whole
operation (the source's `?`), and a process abort propagates. -/
def reiterateTargets : List (String × Bool) → KRes (List Char)
  | [] => .ok []
  | (original, shouldDakuten) :: t =>
    match (if shouldDakuten then reiterateDakuon original else reiterateSeion original) with
    | .ok c =>
      match reiterateTargets t with
      | .ok cs => .ok (c :: cs)
      | .fail => .fail
      | .abort => .abort
    | .fail => .fail
    | .abort => .abort

/-- `reiterate` (src/ja.rs): resolve a nonempty chain of iteration marks whose
first mark (already consumed) is `first`, against the lookback buffer `source`;
returns the replacement characters and the remaining input after consuming the
chained marks.  `.fail` when the chain is longer than the buffer or a voiced
repeat has no valid counterpart; `.abort` when a transform panics. -/
def reiterate (first : String) (source : List String) (chars : List Char) :
    KRes (List Char × List Char) :=
  let shouldDakutenByMark := (first == "ヾ") :: peekMarks (chars.length + 1) chars
  let iterationCount := shouldDakutenByMark.length
  if source.length < iterationCount then .fail
  else
    let src := source.drop (source.length - iterationCount)
    match reiterateTargets (src.zip shouldDakutenByMark) with
    | .ok target => .ok (target, chars.drop (iterationCount - 1))
    | .fail => .fail
    | .abort => .abort

/-- The scanning loop of `expand_katakana` (src/ja.rs).  `kataBuf` is the
lookback buffer of kana clusters since the last break; `buf` the output.
A non-kana character flushes the buffer into the output, *clears it*
(`kata_buffer.truncate(0)`) and is itself dropped, exactly as in the source.
Fuel exceeds the remaining length at every call site, so the fuel-exhaustion
`.abort` is unreachable. -/
def expandGo : Nat → List Char → List String → String → KRes String
  | 0, _, _, _ => .abort
  | _ + 1, [], kataBuf, buf => .ok (buf ++ String.join kataBuf)
  | fuel + 1, c :: t, kataBuf, buf =>
    match tryConsumeKana c t with
    | some (kana, t2) =>
      if kana = "ヽ" ∨ kana = "ヾ" then
        match reiterate kana kataBuf t2 with
        | .ok (extra, t3) =>
          expandGo fuel t3 [] (buf ++ String.join kataBuf ++ ⟨extra⟩)
        | .fail => .fail
        | .abort => .abort
      else expandGo fuel t2 (kataBuf ++ [kana]) buf
    | none => expandGo fuel t [] (buf ++ String.join kataBuf)

/-- `expand_katakana` (src/ja.rs): expand the katakana iteration marks ヽ/ヾ
against the most recent unbroken run of kana clusters.  `.fail` is the
source's `None`; `.abort` a panic inside a repeat transform. -/
def expandKatakana (reading : String) : KRes String :=
  expandGo (reading.data.length + 1) reading.data [] ""

/-! ## parse.rs: record shapes consumed by inference -/

/-- `JaKanjitab` (src/parse.rs): parallel reading/alteration/omission columns;
a reading cell is its text plus the declared character span (a Rust `u8`). -/
structure JaKanjitab where
  readings : List (String × Nat)
  alterations : List (Option String)
  omissions : List (Option String)
deriving DecidableEq

/-- `JaPronAccent` (src/parse.rs). -/
inductive JaPronAccent where
  | numeric (n : Nat)
  | odaka
  | none
deriving DecidableEq

/-- `JaPron` (src/parse.rs). -/
structure JaPron where
  readings : List String
  accents : List JaPronAccent
  accentLocations : List Bool
deriving DecidableEq

/-- The accent-cell value mapping of `parse_ja_pron` (src/parse.rs, the match
on `value`): `"h"`→0, `"a"`→1, `"o"`→odaka, `""`→none, otherwise a parsed
number (`none` models the `parse::<u8>().unwrap()` panic on a non-number). -/
def parseJaPronAccentValue (value : String) : Option JaPronAccent :=
  if value = "h" then some (.numeric 0)
  else if value = "a" then some (.numeric 1)
  else if value = "o" then some .odaka
  else if value = "" then some .none
  else (value.toNat?).map .numeric

/-! ## infer.rs: decomposition -/

/-- `Atom` (src/infer.rs). -/
inductive Atom where
  | Ruby (character_count : Nat) (reading : String)
  | Unknown (c : Char)
  | Kana (kana : String)
deriving DecidableEq

/-- `DecompositionInfo` (src/infer.rs). -/
structure DecompositionInfo where
  atoms : List Atom
deriving DecidableEq

/-- The phonetic contribution of one atom, as mapped inside
`DecompositionInfo::reading` (src/infer.rs). -/
def Atom.phon : Atom → String
  | .Ruby _ reading => reading
  | .Unknown c => c.toString
  | .Kana kana => kana

/-- `DecompositionInfo::reading` (src/infer.rs): concatenate every atom's
phonetic contribution in order. -/
def DecompositionInfo.reading (d : DecompositionInfo) : String :=
  String.join (d.atoms.map Atom.phon)

/-- `DecompositionError` (src/infer.rs). -/
inductive DecompositionError where
  | Incomplete
  | Empty
  | Mismatch
  | Unconsidered
deriving DecidableEq

/-- Outcome of `infer_decompositions`: `ok`/`err` mirror `Result`, and `abort`
models a failed `assert!`, a failed `unwrap()` or `unreachable!()` (a process
abort in the source). -/
inductive DecompOutcome where
  | ok (d : DecompositionInfo)
  | err (e : DecompositionError)
  | abort
deriving DecidableEq

/-- Outcome of the title-walking loop of `infer_decompositions`: the emitted
atoms and the final kanji-table cursor, an error, or a process abort. -/
inductive WalkRes where
  | ok (atoms : List Atom) (cursor : Nat)
  | err (e : DecompositionError)
  | abort
deriving DecidableEq

/-- The `for _ in 1..*character_count` skip of `infer_decompositions`
(src/infer.rs): consume `n` further title characters, requiring each to be an
ideograph (`none` models the `unwrap()`/`assert!` abort). -/
def skipIdeographs : Nat → List Char → Option (List Char)
  | 0, chars => some chars
  | _ + 1, [] => none  -- `chars.next().unwrap()` panics
  | n + 1, c :: t => if isIdeograph c then skipIdeographs n t else none

/-- The character-walking loop of `infer_decompositions` (src/infer.rs):
ideographs consume a kanji-table cell (alteration override, the `"ー"`/`"-"`
empty-reading convention, optional zero-span omission atom, multi-character
span skip); `ヶ` emits an Unknown atom; kana clusters emit Kana atoms; any
other character is `unreachable!()`.  Fuel exceeds the remaining length at
every call site. -/
def decompWalk (tab : JaKanjitab) : Nat → List Char → Nat → List Atom → WalkRes
  | 0, _, _, _ => .abort
  | _ + 1, [], cursor, acc => .ok acc cursor
  | fuel + 1, c :: rest, cursor, acc =>
    if isIdeograph c then
      match tab.readings.get? cursor with
      | Option.none => .err .Incomplete
      | some rc =>
        let rd := ((tab.alterations.get? cursor).bind id).getD rc.1
        match (if rd = "ー" ∨ rd = "-" then some "" else
            tryKatakanify rd rustWhitespace (fun _ => false)) with
        | Option.none => .err .Unconsidered
        | some rd2 =>
          let acc1 := acc ++ [.Ruby rc.2 rd2]
          match (match tab.omissions.get? cursor with
            | some (some om) =>
              match tryKatakanify om (fun _ => false) (fun _ => false) with
              | some omk => some (acc1 ++ [.Ruby 0 omk])
              | Option.none => Option.none  -- `.unwrap()` panics
            | _ => some acc1) with
          | Option.none => .abort
          | some acc2 =>
            match skipIdeographs (rc.2 - 1) rest with
            | Option.none => .abort
            | some rest2 => decompWalk tab fuel rest2 (cursor + 1) acc2
    else if c = 'ヶ' then decompWalk tab fuel rest cursor (acc ++ [.Unknown c])
    else
      match tryConsumeKana c rest with
      | some kr => decompWalk tab fuel kr.2 cursor (acc ++ [.Kana kr.1])
      | Option.none => .abort  -- `unreachable!()`

/-- The weight an atom contributes to the span-sum consistency check:
its `character_count` for Ruby atoms, zero otherwise (src/infer.rs). -/
def rubyWeight : Atom → Nat
  | .Ruby character_count _ => character_count
  | _ => 0

/-- Sum of `character_count` over the Ruby atoms of a sequence. -/
def rubySum (atoms : List Atom) : Nat := (atoms.map rubyWeight).sum

/-- `title.chars().map(is_ideograph).map(|x| x as u64).sum()` (src/infer.rs). -/
def ideographCount (title : String) : Nat := title.data.countP isIdeograph

/-- `str::strip_prefix` on character lists: if `p` is an initial run of `l`,
return the remainder. -/
def chopLead : List Char → List Char → Option (List Char)
  | [], l => some l
  | _ :: _, [] => Option.none
  | a :: p, b :: l => if a = b then chopLead p l else Option.none

/-- One candidate iteration of `align` (src/infer.rs): consume `remaining`
left-to-right against the atoms starting at absolute index `i`, recording the
licensed substitutions (ヶ→カ/ガ, ヅ→ズ).  Exactly as in the source, reaching
the end of the atom sequence succeeds with no check that `remaining` is empty. -/
def alignOne : List Atom → List Char → Nat → Option (List (Nat × String))
  | [], _, _ => some []
  | atom :: rest, remaining, i =>
    match atom with
    | .Ruby _ reading =>
      match chopLead reading.data remaining with
      | some rem2 => alignOne rest rem2 (i + 1)
      | Option.none => Option.none
    | .Unknown x =>
      if x = 'ヶ' then
        match chopLead ['カ'] remaining with
        | some rem2 => (alignOne rest rem2 (i + 1)).map ((i, "カ") :: ·)
        | Option.none =>
          match chopLead ['ガ'] remaining with
          | some rem2 => (alignOne rest rem2 (i + 1)).map ((i, "ガ") :: ·)
          | Option.none => Option.none
      else Option.none
    | .Kana kana =>
      match chopLead kana.data remaining with
      | some rem2 => alignOne rest rem2 (i + 1)
      | Option.none =>
        if kana = "ヅ" then
          match chopLead "ズ".data remaining with
          | some rem2 => (alignOne rest rem2 (i + 1)).map ((i, "ズ") :: ·)
          | Option.none => Option.none
        else Option.none

/-- `align` (src/infer.rs): try each candidate reading in iteration order; the
first whose atom-by-atom consumption succeeds wins.  The source iterates a
`HashSet`; the model fixes the iteration order as the list order. -/
def align (candidate : List Atom) : List String → Option (List (Nat × String))
  | [] => Option.none
  | reading :: rest =>
    match alignOne candidate reading.data 0 with
    | some replacements => some replacements
    | Option.none => align candidate rest

/-- The substitution write-back loop of `infer_decompositions` (src/infer.rs):
`atoms[i] = Atom::Ruby { character_count: 1, reading }` for each recorded
replacement. -/
def applyReps (atoms : List Atom) (reps : List (Nat × String)) : List Atom :=
  reps.foldl (fun acc pr => acc.set pr.1 (.Ruby 1 pr.2)) atoms

/-- `infer_decompositions` (src/infer.rs): the full pipeline — emptiness check,
column-length asserts, title normalization, the character walk, the span-sum
and unused-trailing-cell asserts, alignment, and substitution write-back. -/
def inferDecompositions (title : String) (tab : JaKanjitab) (readings : List String) :
    DecompOutcome :=
  if tab.readings = [] then .err .Empty
  else if ¬(tab.alterations.length ≤ tab.readings.length
      ∧ tab.omissions.length ≤ tab.readings.length) then .abort
  else
    match tryKatakanify title (fun c => c = '-' ∨ c = '、') isIdeograph with
    | Option.none => .err .Unconsidered
    | some kataTitle =>
      match decompWalk tab (kataTitle.data.length + 1) kataTitle.data 0 [] with
      | .abort => .abort
      | .err e => .err e
      | .ok atoms cursor =>
        if ¬(rubySum atoms = ideographCount title) then .abort
        else if ¬((tab.readings.drop cursor).all fun x => x.1 = "") then .abort
        else
          match align atoms readings with
          | Option.none => .err .Mismatch
          | some replacements => .ok ⟨applyReps atoms replacements⟩

/-! ## infer.rs: accent inference -/

/-- `AccentInfo` (src/infer.rs). -/
structure AccentInfo where
  reading : String
  accent : Option Nat
deriving DecidableEq

/-- `reading_ignore` (src/infer.rs). -/
def readingIgnore (c : Char) : Bool :=
  c = '.' ∨ c = '%' ∨ c = '-' ∨ c = '゠' ∨ c = '・' ∨ rustWhitespace c

/-- The local `Reading` enum of `infer_accent` (src/infer.rs). -/
inductive RState where
  | fallback
  | error
  | actual (s : String)
deriving DecidableEq

/-- The composite `try_katakanify(x, reading_ignore, |_| false)` followed by
`expand_katakana`, as used for both reading cells and the title seed in
`infer_accent` (src/infer.rs): `.fail` is the composite returning `None`,
`.abort` a panic inside expansion. -/
def pronNormalize (r : String) : KRes String :=
  match tryKatakanify r readingIgnore (fun _ => false) with
  | Option.none => .fail
  | some x => expandKatakana x

/-- The reading-cell preprocessing of `infer_accent` (src/infer.rs): an empty
cell is a fallback marker; otherwise katakana-normalize and expand iteration
marks, recording failure as `error`.  `none` models a panic during
expansion. -/
def procReading (r : String) : Option RState :=
  if r = "" then some .fallback
  else
    match pronNormalize r with
    | .ok x => some (.actual x)
    | .fail => some .error
    | .abort => Option.none

/-- The cell loop of `infer_accent` (src/infer.rs) over `ja_pron.readings`,
left to right; a panic in any cell aborts the whole inference. -/
def procReadings : List String → Option (List RState)
  | [] => some []
  | r :: t =>
    match procReading r with
    | Option.none => Option.none
    | some st =>
      match procReadings t with
      | Option.none => Option.none
      | some sts => some (st :: sts)

/-- The accent-code resolution of `infer_accent` (src/infer.rs): numeric codes
pass through, odaka resolves to the mora duration of the chosen reading (the
source casts it to `u8`, aborting above 255; durations are modelled in `Nat`),
and absent codes resolve to no accent. -/
def resolveAccent : JaPronAccent → String → Option Nat
  | .numeric n, _ => some n
  | .odaka, r => some (computeDuration r)
  | .none, _ => Option.none

/-- The accumulation loop of `infer_accent` (src/infer.rs) over the padded
reading/accent pairs, carrying the most recent resolved reading (`last`) and
the record index (for the non-standard-dialect location flags). -/
def accentLoop (locs : List Bool) : List (RState × JaPronAccent) → Option String → Nat →
    List AccentInfo
  | [], _, _ => []
  | (r, a) :: t, last, idx =>
    match r with
    | .error => accentLoop locs t Option.none (idx + 1)
    | .actual x =>
      if (locs.get? idx).getD false then accentLoop locs t (some x) (idx + 1)
      else ⟨x, resolveAccent a x⟩ :: accentLoop locs t (some x) (idx + 1)
    | .fallback =>
      match last with
      | Option.none => accentLoop locs t Option.none (idx + 1)
      | some x =>
        if (locs.get? idx).getD false then accentLoop locs t (some x) (idx + 1)
        else ⟨x, resolveAccent a x⟩ :: accentLoop locs t (some x) (idx + 1)

/-- `infer_accent` (src/infer.rs) up to (but not including) its pre-return
assertion: preprocess the reading cells, pad readings/accents to a common
length, seed the fallback with the normalized-and-expanded title, and run the
accumulation loop.  `none` models a panic during cell preprocessing or the
title seed (both reachable, e.g. through a ー cluster under an iteration
mark); the cells are processed before the title, as in the source. -/
def inferAccentInfos (title : String) (p : JaPron) : Option (List AccentInfo) :=
  match procReadings p.readings with
  | Option.none => Option.none
  | some rs =>
    let maxLen := max rs.length p.accents.length
    let rs2 := rs ++ List.replicate (maxLen - rs.length) .fallback
    let as2 := p.accents ++ List.replicate (maxLen - p.accents.length) .none
    match pronNormalize title with
    | .abort => Option.none
    | .ok t => some (accentLoop p.accentLocations (rs2.zip as2) (some t) 0)
    | .fail => some (accentLoop p.accentLocations (rs2.zip as2) Option.none 0)

/-- The pre-return assertion of `infer_accent` (src/infer.rs): every resolved
numeric accent is at most the mora duration of its reading. -/
def accentAssert (infos : List AccentInfo) : Bool :=
  infos.all fun i =>
    match i.accent with
    | Option.none => true
    | some a => a ≤ computeDuration i.reading

/-- `infer_accent` (src/infer.rs) including the pre-return assertion: `none`
models a process abort — either a kana-processing panic (from
`inferAccentInfos`) or the `assert!` failing. -/
def inferAccent (title : String) (p : JaPron) : Option (List AccentInfo) :=
  match inferAccentInfos title p with
  | Option.none => Option.none
  | some infos => if accentAssert infos then some infos else Option.none

/-! ## wikitext.rs: template scanner and parameter splitter

Positions are character indices into the fixed document `s`; `slice s a b`
is the source's `&s[a..b]` (all the source's index arithmetic lands on
character boundaries, and every character whose width enters that arithmetic
is ASCII, so character indices track the source's byte indices one-for-one). -/

/-- `&s[a..b]` as a character list. -/
def sliceCh (s : List Char) (a b : Nat) : List Char := (s.drop a).take (b - a)

/-- The comment-skipping inner loop shared by `FindTemplates::next` and
`TemplateParameters::next` (src/wikitext.rs): scan for `-->`; returns the
offset just past the terminator (the source's `i + 3` resume point, relative
to the scan start), or `none` when the document ends first. -/
def scanC : List Char → Option Nat
  | [] => none
  | c :: t =>
    if c = '-' ∧ t.take 2 = ['-', '>'] then some 3
    else (scanC t).map (· + 1)

/-- `str::find` for a pattern list: the first index where `pat` starts. -/
def findSub (pat : List Char) : List Char → Option Nat
  | [] => if pat = [] then some 0 else none
  | l@(_ :: t) =>
    if l.take pat.length = pat then some 0
    else (findSub pat t).map (· + 1)

/-- Iterator state of `FindTemplates` (src/wikitext.rs).  The `name` slice is
stored by content. -/
structure FTState where
  i : Nat
  name : String
  start : Nat
  depth : Nat
  invalid : Bool
deriving DecidableEq

/-- The scanning loop of `FindTemplates::next` (src/wikitext.rs), one source
loop iteration per fuel unit.  The arms, in source order: `{{{`, `}}}`,
`{{` (with the depth-zero name search over `find("}}")`/`find('|')`),
`}}` (emitting the invocation when depth returns to zero), and `<!--`.
Closing braces at depth zero, an unterminated name search and an unterminated
comment set the permanent `invalid` latch.  Fuel exceeds the remaining
character count at every call site. -/
def ftGo (s : List Char) : Nat → FTState → Option (String × String) × FTState
  | 0, st => (none, st)
  | fuel + 1, st =>
    match s.drop st.i with
    | [] => (none, st)
    | c :: t =>
      if c = '{' ∧ t.take 2 = ['{', '{'] then
        ftGo s fuel { st with i := st.i + 3, depth := st.depth + 1 }
      else if c = '}' ∧ t.take 2 = ['}', '}'] then
        if st.depth = 0 then (none, { st with i := st.i + 3, invalid := true })
        else ftGo s fuel { st with i := st.i + 3, depth := st.depth - 1 }
      else if c = '{' ∧ t.take 1 = ['{'] then
        if st.depth = 0 then
          match findSub ['}', '}'] (s.drop (st.i + 2)) with
          | none => (none, { st with i := st.i + 2, invalid := true })
          | some limit =>
            match findSub ['|'] (sliceCh s (st.i + 2) (st.i + 2 + limit)) with
            | none =>
              (some (⟨sliceCh s (st.i + 2) (st.i + 2 + limit)⟩, ""),
                { st with i := st.i + 2 + limit + 2, start := st.i + 2 + limit + 1 })
            | some e =>
              ftGo s fuel { st with
                i := st.i + 2 + e + 1
                depth := st.depth + 1
                name := (⟨sliceCh s (st.i + 2) (st.i + 2 + e)⟩ : String)
                start := st.i + 2 + e + 1 }
        else ftGo s fuel { st with i := st.i + 2, depth := st.depth + 1 }
      else if c = '}' ∧ t.take 1 = ['}'] then
        if st.depth = 0 then (none, { st with i := st.i + 2, invalid := true })
        else if st.depth = 1 then
          (some (st.name, ⟨sliceCh s st.start st.i⟩), { st with i := st.i + 2, depth := 0 })
        else ftGo s fuel { st with i := st.i + 2, depth := st.depth - 1 }
      else if c = '<' ∧ t.take 3 = ['!', '-', '-'] then
        match scanC (s.drop (st.i + 4)) with
        | none => (none, { st with i := s.length, invalid := true })
        | some off => ftGo s fuel { st with i := st.i + 4 + off }
      else ftGo s fuel { st with i := st.i + 1 }

/-- `FindTemplates::next` (src/wikitext.rs): the `is_invalid` early return,
then the scanning loop. -/
def ftNext (s : List Char) (st : FTState) : Option (String × String) × FTState :=
  if st.invalid then (none, st) else ftGo s (s.length - st.i + 1) st

/-- The fresh iterator of `FindTemplates::new` (src/wikitext.rs). -/
def ftInit : FTState := ⟨0, "", 0, 0, false⟩

/-- Drive `FindTemplates` to exhaustion, collecting every yielded
(name, raw-arguments) pair, as the orchestration loop does. -/
def ftAllGo (s : List Char) : Nat → FTState → List (String × String)
  | 0, _ => []
  | fuel + 1, st =>
    match ftNext s st with
    | (none, _) => []
    | (some item, st2) => item :: ftAllGo s fuel st2

/-- All template invocations of a document, in order. -/
def ftAll (doc : String) : List (String × String) :=
  ftAllGo doc.data (doc.data.length + 1) ftInit

/-- The `n`-th successive output of `FindTemplates::next` from state `st`. -/
def ftIterN (s : List Char) : Nat → FTState → Option (String × String)
  | 0, st => (ftNext s st).1
  | n + 1, st => ftIterN s n (ftNext s st).2

/-- Iterator state of `TemplateParameters` (src/wikitext.rs). -/
structure TPState where
  i : Nat
  start : Nat
  depth : Nat
  commentless : Option String
  invalid : Bool
deriving DecidableEq

/-- The scanning loop of `TemplateParameters::next` (src/wikitext.rs), one
source loop iteration per fuel unit, plus the post-loop trailing-parameter
emission.  The arms, in source order: `|` at depth zero (parameter boundary),
`{{{`, `}}}`, doubled `[[`/`{{`, doubled `]]`/`}}`, and `<!--` (buffering the
pre-comment fragment into `commentless`).  Note that only doubled brackets
move the depth counter.  Fuel exceeds the remaining character count at every
call site. -/
def tpGo (s : List Char) : Nat → TPState → Option String × TPState
  | 0, st => (none, st)
  | fuel + 1, st =>
    match s.drop st.i with
    | [] =>
      if st.start < s.length ∨ st.commentless.isSome then
        (some ((st.commentless.getD "") ++ ⟨s.drop st.start⟩),
          { st with start := s.length, commentless := none })
      else (none, st)
    | c :: t =>
      if c = '|' ∧ st.depth = 0 then
        (some ((st.commentless.getD "") ++ ⟨sliceCh s st.start st.i⟩),
          { st with i := st.i + 1, start := st.i + 1, commentless := none })
      else if c = '{' ∧ t.take 2 = ['{', '{'] then
        tpGo s fuel { st with i := st.i + 3, depth := st.depth + 1 }
      else if c = '}' ∧ t.take 2 = ['}', '}'] then
        if st.depth = 0 then (none, { st with i := st.i + 3, invalid := true })
        else tpGo s fuel { st with i := st.i + 3, depth := st.depth - 1 }
      else if (c = '[' ∨ c = '{') ∧ t.take 1 = [c] then
        tpGo s fuel { st with i := st.i + 2, depth := st.depth + 1 }
      else if (c = ']' ∨ c = '}') ∧ t.take 1 = [c] then
        if st.depth = 0 then (none, { st with i := st.i + 2, invalid := true })
        else tpGo s fuel { st with i := st.i + 2, depth := st.depth - 1 }
      else if c = '<' ∧ t.take 3 = ['!', '-', '-'] then
        match scanC (s.drop (st.i + 4)) with
        | none =>
          (none, { st with
            i := s.length
            invalid := true
            commentless := some ((st.commentless.getD "") ++ ⟨sliceCh s st.start st.i⟩) })
        | some off =>
          tpGo s fuel { st with
            i := st.i + 4 + off
            start := st.i + 4 + off
            commentless := some ((st.commentless.getD "") ++ ⟨sliceCh s st.start st.i⟩) }
      else tpGo s fuel { st with i := st.i + 1 }

/-- `TemplateParameters::next` (src/wikitext.rs): the `is_invalid` early
return, then the scanning loop. -/
def tpNext (s : List Char) (st : TPState) : Option String × TPState :=
  if st.invalid then (none, st) else tpGo s (s.length - st.i + 2) st

/-- The fresh iterator of `TemplateParameters::new` (src/wikitext.rs). -/
def tpInit : TPState := ⟨0, 0, 0, none, false⟩

/-- Drive `TemplateParameters` to exhaustion, collecting every parameter. -/
def tpAllGo (s : List Char) : Nat → TPState → List String
  | 0, _ => []
  | fuel + 1, st =>
    match tpNext s st with
    | (none, _) => []
    | (some item, st2) => item :: tpAllGo s fuel st2

/-- All top-level parameters of a raw argument blob, in order. -/
def tpAll (blob : String) : List String :=
  tpAllGo blob.data (blob.data.length + 2) tpInit

/-- Shift every replacement index down by `k` (proof bookkeeping for the
absolute indices recorded by `align`). -/
def shiftReps (reps : List (Nat × String)) (k : Nat) : List (Nat × String) :=
  reps.map fun pr => (pr.1 - k, pr.2)

/-- The flattened per-atom phonetic contributions of an atom sequence. -/
def phonFlat (atoms : List Atom) : List Char :=
  (atoms.map fun a => a.phon.data).flatten

/-! ## Helper lemmas -/

theorem foldlAppend_data : ∀ (l : List String) (acc : String),
    (l.foldl (· ++ ·) acc).data = acc.data ++ (l.map String.data).flatten
  | [], acc => by simp
  | h :: t, acc => by
    simp only [List.foldl_cons, foldlAppend_data t (acc ++ h), List.map_cons,
      List.flatten_cons, String.data_append, List.append_assoc]

theorem stringJoin_data (l : List String) :
    (String.join l).data = (l.map String.data).flatten := by
  have h := foldlAppend_data l ""
  simp only [String.join]
  rw [h]
  rfl

/-- The characters of a decomposition's concatenated reading are the flattened
per-atom phonetic contributions. -/
theorem reading_data (d : DecompositionInfo) : d.reading.data = phonFlat d.atoms := by
  simp [DecompositionInfo.reading, phonFlat, stringJoin_data, List.map_map,
    Function.comp_def]

theorem chopLead_eq : ∀ (p l l2 : List Char), chopLead p l = some l2 → l = p ++ l2
  | [], l, l2, h => by
    have : l = l2 := by simpa [chopLead] using h
    simpa using this
  | a :: p, [], l2, h => by simp [chopLead] at h
  | a :: p, b :: l, l2, h => by
    simp only [chopLead] at h
    split at h
    · next hab => simpa [hab] using congrArg (b :: ·) (chopLead_eq p l l2 h)
    · exact absurd h (by simp)

theorem shiftReps_zero (reps : List (Nat × String)) : shiftReps reps 0 = reps := by
  simp [shiftReps]

theorem shiftReps_shift (reps : List (Nat × String)) (i : Nat) :
    shiftReps (shiftReps reps i) 1 = shiftReps reps (i + 1) := by
  simp only [shiftReps, List.map_map]
  exact List.map_congr_left fun pr _ => by simp [Function.comp_def, Nat.sub_sub]

theorem applyReps_consAtom : ∀ (reps : List (Nat × String)) (a : Atom) (l : List Atom),
    (∀ pr ∈ reps, 1 ≤ pr.1) →
    applyReps (a :: l) reps = a :: applyReps l (shiftReps reps 1)
  | [], a, l, _ => rfl
  | (j, s) :: reps, a, l, h => by
    obtain ⟨j', rfl⟩ : ∃ j', j = j' + 1 := by
      have := h (j, s) (by simp)
      exact ⟨j - 1, by omega⟩
    show applyReps ((a :: l).set (j' + 1) (.Ruby 1 s)) reps = _
    have hset : (a :: l).set (j' + 1) (.Ruby 1 s) = a :: l.set j' (.Ruby 1 s) := rfl
    rw [hset, applyReps_consAtom reps a (l.set j' (.Ruby 1 s))
      (fun pr hpr => h pr (by simp [hpr]))]
    simp [shiftReps, applyReps]

theorem phonFlat_cons (a : Atom) (l : List Atom) :
    phonFlat (a :: l) = a.phon.data ++ phonFlat l := by
  simp [phonFlat]

theorem rubySum_cons (a : Atom) (l : List Atom) :
    rubySum (a :: l) = rubyWeight a + rubySum l := by
  simp [rubySum]

theorem applyReps_consOf (a : Atom) (rest : List Atom) (reps : List (Nat × String))
    (i : Nat) (h : ∀ pr ∈ reps, i + 1 ≤ pr.1) :
    applyReps (a :: rest) (shiftReps reps i) = a :: applyReps rest (shiftReps reps (i + 1)) := by
  rw [applyReps_consAtom, shiftReps_shift]
  intro pr hpr
  obtain ⟨q, hq, rfl⟩ := List.mem_map.mp hpr
  have := h q hq
  omega

theorem applyReps_replaceHead (a : Atom) (rest : List Atom) (reps : List (Nat × String))
    (i : Nat) (str : String) (h : ∀ pr ∈ reps, i + 1 ≤ pr.1) :
    applyReps (a :: rest) (shiftReps ((i, str) :: reps) i)
      = .Ruby 1 str :: applyReps rest (shiftReps reps (i + 1)) := by
  have h0 : shiftReps ((i, str) :: reps) i = (0, str) :: shiftReps reps i := by
    simp [shiftReps]
  rw [h0]
  show applyReps ((a :: rest).set 0 (.Ruby 1 str)) (shiftReps reps i) = _
  have hset : (a :: rest).set 0 (Atom.Ruby 1 str) = .Ruby 1 str :: rest := rfl
  rw [hset, applyReps_consOf _ _ _ _ h]

/-- Soundness of one `align` candidate pass (src/infer.rs): if the atoms
starting at absolute index `i` consume `rem` producing replacements `reps`,
then every replacement index is at least `i`, the consumed characters are
exactly the phonetic contributions of the substituted atom sequence (leaving
some unchecked suffix `left`, since the source never tests that the candidate
was fully consumed), and each replacement raises the Ruby span sum by one. -/
theorem alignOne_spec : ∀ (atoms : List Atom) (rem : List Char) (i : Nat)
    (reps : List (Nat × String)), alignOne atoms rem i = some reps →
    (∀ pr ∈ reps, i ≤ pr.1)
    ∧ (∃ left, rem = phonFlat (applyReps atoms (shiftReps reps i)) ++ left)
    ∧ rubySum (applyReps atoms (shiftReps reps i)) = rubySum atoms + reps.length
  | [], rem, i, reps, h => by
    have hreps : reps = [] := by simpa [alignOne] using h.symm
    subst hreps
    exact ⟨by simp, ⟨rem, by simp [applyReps, shiftReps, phonFlat]⟩, by simp [applyReps, shiftReps]⟩
  | .Ruby cc rd :: rest, rem, i, reps, h => by
    simp only [alignOne] at h
    cases hc : chopLead rd.data rem with
    | none => rw [hc] at h; cases h
    | some rem2 =>
      rw [hc] at h
      obtain ⟨hidx, ⟨left, hleft⟩, hsum⟩ := alignOne_spec rest rem2 (i + 1) reps h
      have hge : ∀ pr ∈ reps, i + 1 ≤ pr.1 := hidx
      have happ := applyReps_consOf (.Ruby cc rd) rest reps i hge
      refine ⟨fun pr hpr => Nat.le_of_succ_le (hge pr hpr), ⟨left, ?_⟩, ?_⟩
      · rw [happ, phonFlat_cons, chopLead_eq rd.data rem rem2 hc, hleft]
        simp [Atom.phon]
      · rw [happ, rubySum_cons, rubySum_cons, hsum]
        simp [rubyWeight]
        omega
  | .Unknown x :: rest, rem, i, reps, h => by
    simp only [alignOne] at h
    split at h
    case isTrue hx =>
      subst hx
      cases hcka : chopLead ['カ'] rem with
      | some rem2 =>
        rw [hcka] at h
        obtain ⟨reps', hrec, rfl⟩ := Option.map_eq_some'.mp h
        obtain ⟨hidx, ⟨left, hleft⟩, hsum⟩ := alignOne_spec rest rem2 (i + 1) reps' hrec
        have happ := applyReps_replaceHead (.Unknown 'ヶ') rest reps' i "カ" hidx
        refine ⟨?_, ⟨left, ?_⟩, ?_⟩
        · intro pr hpr
          rcases List.mem_cons.mp hpr with rfl | hpr2
          · exact Nat.le_refl i
          · exact Nat.le_of_succ_le (hidx pr hpr2)
        · rw [happ, phonFlat_cons, chopLead_eq _ rem rem2 hcka, hleft]
          simp [Atom.phon]
        · rw [happ, rubySum_cons, rubySum_cons, hsum]
          simp [rubyWeight]
          omega
      | none =>
        rw [hcka] at h
        cases hcga : chopLead ['ガ'] rem with
        | none => rw [hcga] at h; cases h
        | some rem2 =>
          rw [hcga] at h
          obtain ⟨reps', hrec, rfl⟩ := Option.map_eq_some'.mp h
          obtain ⟨hidx, ⟨left, hleft⟩, hsum⟩ := alignOne_spec rest rem2 (i + 1) reps' hrec
          have happ := applyReps_replaceHead (.Unknown 'ヶ') rest reps' i "ガ" hidx
          refine ⟨?_, ⟨left, ?_⟩, ?_⟩
          · intro pr hpr
            rcases List.mem_cons.mp hpr with rfl | hpr2
            · exact Nat.le_refl i
            · exact Nat.le_of_succ_le (hidx pr hpr2)
          · rw [happ, phonFlat_cons, chopLead_eq _ rem rem2 hcga, hleft]
            simp [Atom.phon]
          · rw [happ, rubySum_cons, rubySum_cons, hsum]
            simp [rubyWeight]
            omega
    case isFalse => cases h
  | .Kana kana :: rest, rem, i, reps, h => by
    simp only [alignOne] at h
    cases hc : chopLead kana.data rem with
    | some rem2 =>
      rw [hc] at h
      obtain ⟨hidx, ⟨left, hleft⟩, hsum⟩ := alignOne_spec rest rem2 (i + 1) reps h
      have happ := applyReps_consOf (.Kana kana) rest reps i hidx
      refine ⟨fun pr hpr => Nat.le_of_succ_le (hidx pr hpr), ⟨left, ?_⟩, ?_⟩
      · rw [happ, phonFlat_cons, chopLead_eq kana.data rem rem2 hc, hleft]
        simp [Atom.phon]
      · rw [happ, rubySum_cons, rubySum_cons, hsum]
        simp [rubyWeight]
    | none =>
      rw [hc] at h
      by_cases hkana : kana = "ヅ"
      · rw [if_pos hkana] at h
        cases hcz : chopLead ['ズ'] rem with
        | none => rw [hcz] at h; cases h
        | some rem2 =>
          rw [hcz] at h
          obtain ⟨reps', hrec, rfl⟩ := Option.map_eq_some'.mp h
          obtain ⟨hidx, ⟨left, hleft⟩, hsum⟩ := alignOne_spec rest rem2 (i + 1) reps' hrec
          have happ := applyReps_replaceHead (.Kana kana) rest reps' i "ズ" hidx
          refine ⟨?_, ⟨left, ?_⟩, ?_⟩
          · intro pr hpr
            rcases List.mem_cons.mp hpr with rfl | hpr2
            · exact Nat.le_refl i
            · exact Nat.le_of_succ_le (hidx pr hpr2)
          · rw [happ, phonFlat_cons, chopLead_eq ['ズ'] rem rem2 hcz, hleft]
            simp [Atom.phon]
          · rw [happ, rubySum_cons, rubySum_cons, hsum]
            simp [rubyWeight]
            omega
      · rw [if_neg hkana] at h
        cases h

/-- `align` (src/infer.rs) succeeds exactly by one of its candidates. -/
theorem align_mem : ∀ (rs : List String) (atoms : List Atom) (reps : List (Nat × String)),
    align atoms rs = some reps → ∃ r ∈ rs, alignOne atoms r.data 0 = some reps
  | [], _, _, h => by cases h
  | r :: rest, atoms, reps, h => by
    simp only [align] at h
    cases hr : alignOne atoms r.data 0 with
    | some reps' =>
      rw [hr] at h
      exact ⟨r, by simp, by rw [hr]; exact h⟩
    | none =>
      rw [hr] at h
      obtain ⟨r2, hr2, ha⟩ := align_mem rest atoms reps h
      exact ⟨r2, by simp [hr2], ha⟩

/-- Destructor for a successful `infer_decompositions` run: the pre-alignment
atom sequence satisfied the span-sum assertion, alignment succeeded, and the
result is the atom sequence with the recorded substitutions written back. -/
theorem inferDecompositions_ok_elim (title : String) (tab : JaKanjitab) (rs : List String)
    (d : DecompositionInfo) (h : inferDecompositions title tab rs = .ok d) :
    ∃ atoms reps, rubySum atoms = ideographCount title ∧ align atoms rs = some reps ∧
      d.atoms = applyReps atoms reps := by
  unfold inferDecompositions at h
  split at h
  · cases h
  · split at h
    · cases h
    · split at h
      · cases h
      · next kataTitle heqk =>
        split at h
        · cases h
        · cases h
        · next atoms cursor heqw =>
          split at h
          · cases h
          · next hsum =>
            split at h
            · cases h
            · split at h
              · cases h
              · next reps heqa =>
                refine ⟨atoms, reps, by simpa using hsum, heqa, ?_⟩
                cases h
                rfl

/-! ## Claim C1 -/

/-- C1 (counterexample): the claim "concatenating the phonetic contribution of
each atom of the returned DecompositionInfo yields a string equal to some
member of the candidate-reading set" is false as stated: `align` never checks
that the accepted candidate has been consumed in full, so on title `ア`,
a kanji table with the single empty cell, and candidate set `{アン}`,
decomposition succeeds with reading `ア`, which is not a member of the set
(the suffix `ン` is left over). -/
theorem C1_counterexample :
    inferDecompositions "ア" ⟨[("", 1)], [], []⟩ ["アン"] = .ok ⟨[.Kana "ア"]⟩
    ∧ (DecompositionInfo.mk [.Kana "ア"]).reading = "ア"
    ∧ ¬("ア" ∈ ["アン"]) := by decide

/-- C1 (amended): for every title, kanji table and candidate set for which
`infer_decompositions` returns Ok, concatenating the phonetic contribution of
each atom of the returned DecompositionInfo in order yields a string that is a
prefix of (not necessarily equal to) some member of the candidate set: the
accepted candidate is consumed left-to-right by the atom sequence, but any
leftover suffix goes unchecked. -/
theorem C1_reading_matches_candidate (title : String) (tab : JaKanjitab)
    (rs : List String) (d : DecompositionInfo)
    (h : inferDecompositions title tab rs = .ok d) :
    ∃ r ∈ rs, ∃ left, r.data = d.reading.data ++ left := by
  obtain ⟨atoms, reps, _, halign, hd⟩ := inferDecompositions_ok_elim title tab rs d h
  obtain ⟨r, hr, hone⟩ := align_mem rs atoms reps halign
  obtain ⟨_, ⟨left, hleft⟩, _⟩ := alignOne_spec atoms r.data 0 reps hone
  rw [shiftReps_zero] at hleft
  exact ⟨r, hr, left, by rw [reading_data, hd, hleft]⟩

/-- C1 (witness): the amended theorem applied at a concrete input. -/
theorem C1_witness :
    inferDecompositions "慣用" ⟨[("カン", 1), ("ヨウ", 1)], [], []⟩ ["カンヨウ"]
      = .ok ⟨[.Ruby 1 "カン", .Ruby 1 "ヨウ"]⟩
    ∧ ∃ r ∈ ["カンヨウ"], ∃ left,
        r.data = (DecompositionInfo.mk [.Ruby 1 "カン", .Ruby 1 "ヨウ"]).reading.data ++ left :=
  ⟨by decide, C1_reading_matches_candidate "慣用" ⟨[("カン", 1), ("ヨウ", 1)], [], []⟩
    ["カンヨウ"] ⟨[.Ruby 1 "カン", .Ruby 1 "ヨウ"]⟩ (by decide)⟩

/-! ## Claim C2 -/

/-- C2 (counterexample): the claim "the sum of character_count over Ruby atoms
equals the number of ideographic characters in the source title, including
after the recorded substitutions have been applied" is false as stated: each
recorded ヶ/ヅ substitution overwrites a zero-weight atom with a span-1 Ruby
atom.  On title `ヶ` (zero ideographs) with candidate set `{カ}`, the returned
decomposition is a single Ruby atom of span 1. -/
theorem C2_counterexample :
    inferDecompositions "ヶ" ⟨[("", 1)], [], []⟩ ["カ"] = .ok ⟨[.Ruby 1 "カ"]⟩
    ∧ rubySum [.Ruby 1 "カ"] = 1 ∧ ideographCount "ヶ" = 0 := by decide

/-- C2 (amended): for every DecompositionInfo successfully returned by
`infer_decompositions`, the span-sum invariant holds for the atom sequence
*before* substitutions are written back (that is the source's own assertion),
and after the write-back the sum of `character_count` over Ruby atoms equals
the number of ideographic characters in the source title *plus the number of
recorded substitutions* (each ヶ→カ/ガ or ヅ→ズ substitution contributes one
span-1 Ruby atom). -/
theorem C2_rubySum_with_substitutions (title : String) (tab : JaKanjitab)
    (rs : List String) (d : DecompositionInfo)
    (h : inferDecompositions title tab rs = .ok d) :
    ∃ atoms reps, align atoms rs = some reps ∧ d.atoms = applyReps atoms reps
      ∧ rubySum atoms = ideographCount title
      ∧ rubySum d.atoms = ideographCount title + reps.length := by
  obtain ⟨atoms, reps, hsum, halign, hd⟩ := inferDecompositions_ok_elim title tab rs d h
  obtain ⟨r, hr, hone⟩ := align_mem rs atoms reps halign
  obtain ⟨_, _, hsum2⟩ := alignOne_spec atoms r.data 0 reps hone
  rw [shiftReps_zero] at hsum2
  exact ⟨atoms, reps, halign, hd, hsum, by rw [hd, hsum2, hsum]⟩

/-- C2 (witness): the amended theorem applied at a concrete input. -/
theorem C2_witness :
    inferDecompositions "ヶ" ⟨[("", 1)], [], []⟩ ["ガ"] = .ok ⟨[.Ruby 1 "ガ"]⟩
    ∧ ∃ atoms reps, align atoms ["ガ"] = some reps
      ∧ (DecompositionInfo.mk [.Ruby 1 "ガ"]).atoms = applyReps atoms reps
      ∧ rubySum atoms = ideographCount "ヶ"
      ∧ rubySum (DecompositionInfo.mk [.Ruby 1 "ガ"]).atoms = ideographCount "ヶ" + reps.length :=
  ⟨by decide, C2_rubySum_with_substitutions "ヶ" ⟨[("", 1)], [], []⟩ ["ガ"]
    ⟨[.Ruby 1 "ガ"]⟩ (by decide)⟩

/-! ## Claims C6 and C7 -/

/-- If a chain of iteration marks (the already-consumed first mark plus the
peeked continuation) is longer than the lookback buffer, `reiterate` fails. -/
theorem reiterate_fail_of_short (first : String) (source : List String)
    (chars : List Char)
    (h : source.length < (peekMarks (chars.length + 1) chars).length + 1) :
    reiterate first source chars = .fail := by
  unfold reiterate
  rw [if_pos (by simpa using h)]

/-- One step of the expansion loop on a bare iteration-mark cluster whose
chain (this mark plus the immediately following bare marks) is longer than
the loop's *own* lookback buffer fails the whole expansion. -/
theorem expandGo_mark_fail (fuel : Nat) (c : Char) (t : List Char)
    (kataBuf : List String) (buf : String) (hc : c = 'ヽ' ∨ c = 'ヾ')
    (ht : ∀ d ∈ t.head?, isCombiningSoundMark d = false)
    (hlen : kataBuf.length < (peekMarks (t.length + 1) t).length + 1) :
    expandGo (fuel + 1) (c :: t) kataBuf buf = .fail := by
  have htake : t.takeWhile isCombiningSoundMark = [] := by
    cases t with
    | nil => rfl
    | cons d t2 => simp [List.takeWhile_cons, ht d rfl]
  have hdrop : t.dropWhile isCombiningSoundMark = t := by
    cases t with
    | nil => rfl
    | cons d t2 => simp [List.dropWhile_cons, ht d rfl]
  rcases hc with rfl | rfl
  · have hkana : isKanaStart 'ヽ' = true := by decide
    simp only [expandGo, tryConsumeKana, hkana, if_true, htake, hdrop]
    rw [if_pos (by simp)]
    rw [reiterate_fail_of_short "ヽ" kataBuf t hlen]
  · have hkana : isKanaStart 'ヾ' = true := by decide
    simp only [expandGo, tryConsumeKana, hkana, if_true, htake, hdrop]
    rw [if_pos (by simp)]
    rw [reiterate_fail_of_short "ヾ" kataBuf t hlen]

/-- A katakana voiced iteration mark at the very start of the input (so with an
empty lookback buffer), not immediately followed by a combining sound mark,
makes `expand_katakana` fail. -/
theorem expandKatakana_leading_mark (t : List Char)
    (ht : ∀ d ∈ t.head?, isCombiningSoundMark d = false) :
    expandKatakana ⟨'ヾ' :: t⟩ = .fail := by
  show expandGo (('ヾ' :: t).length + 1) ('ヾ' :: t) [] "" = .fail
  simp only [List.length_cons]
  exact expandGo_mark_fail (t.length + 1) 'ヾ' t [] "" (Or.inr rfl) ht (by simp)

/-- C6 (counterexample): the claim "every vowel syllable (ア-row) has no voiced
form, so the dakuon transform fails on it" is false for ウ: the transform maps
ウ to ヴ, and a voiced iteration mark referring back to ウ expands
successfully. -/
theorem C6_counterexample :
    reiterateDakuon "ウ" = .ok 'ヴ' ∧ expandKatakana "ウヾ" = .ok "ウヴ" := by
  decide

/-- C6 (amended): for every katakana syllable with no voiced form — every
ア-row vowel *except ウ* (whose voiced form is ヴ), small ッ, and ン — the
voiced-repeat (dakuon) transform fails (the source's explicit `None` arm), and
iteration-mark expansion of a voiced iteration mark referring back to such a
syllable fails as a whole. -/
theorem C6_dakuon_fails_on_unvoiceable :
    (reiterateDakuon "ァ" = .fail ∧ reiterateDakuon "ア" = .fail
      ∧ reiterateDakuon "ィ" = .fail ∧ reiterateDakuon "イ" = .fail
      ∧ reiterateDakuon "ゥ" = .fail ∧ reiterateDakuon "ェ" = .fail
      ∧ reiterateDakuon "エ" = .fail ∧ reiterateDakuon "ォ" = .fail
      ∧ reiterateDakuon "オ" = .fail ∧ reiterateDakuon "ッ" = .fail
      ∧ reiterateDakuon "ン" = .fail)
    ∧ (expandKatakana "ァヾ" = .fail ∧ expandKatakana "アヾ" = .fail
      ∧ expandKatakana "ィヾ" = .fail ∧ expandKatakana "イヾ" = .fail
      ∧ expandKatakana "ゥヾ" = .fail ∧ expandKatakana "ェヾ" = .fail
      ∧ expandKatakana "エヾ" = .fail ∧ expandKatakana "ォヾ" = .fail
      ∧ expandKatakana "オヾ" = .fail ∧ expandKatakana "ッヾ" = .fail
      ∧ expandKatakana "ンヾ" = .fail) := by
  decide

/-- C7 (counterexample): the claim "expanding a string whose very first
character is the voiced iteration mark ゞ must fail" is false: ゞ (U+309E) is
the *hiragana* voiced iteration mark, and `expand_katakana` treats only the
katakana marks ヽ/ヾ (U+30FD/U+30FE) as iteration marks — a leading ゞ is
consumed as an ordinary kana cluster and the expansion succeeds, returning the
input unchanged. -/
theorem C7_counterexample : expandKatakana "ゞ" = .ok "ゞ" := by decide

/-- C7 (amended): iteration-mark expansion fails whenever a chain of katakana
iteration marks is longer than the current lookback buffer of preceding kana
clusters: `reiterate` fails for any caller whose chain exceeds its buffer, the
expansion loop fails outright on a bare mark cluster whose chain exceeds the
loop's own buffer, and in particular expanding a string whose very first
character is the *katakana* voiced iteration mark ヾ — which is what ゞ
becomes under `try_katakanify` — fails, provided no combining sound mark glues
onto the mark.  (A leading *hiragana* ゞ is an ordinary kana cluster and does
not fail.) -/
theorem C7_chain_longer_than_lookback_fails :
    (∀ (first : String) (source : List String) (chars : List Char),
      source.length < (peekMarks (chars.length + 1) chars).length + 1 →
      reiterate first source chars = .fail)
    ∧ (∀ (fuel : Nat) (c : Char) (t : List Char) (kataBuf : List String) (buf : String),
      c = 'ヽ' ∨ c = 'ヾ' → (∀ d ∈ t.head?, isCombiningSoundMark d = false) →
      kataBuf.length < (peekMarks (t.length + 1) t).length + 1 →
      expandGo (fuel + 1) (c :: t) kataBuf buf = .fail)
    ∧ (∀ t : List Char, (∀ d ∈ t.head?, isCombiningSoundMark d = false) →
      expandKatakana ⟨'ヾ' :: t⟩ = .fail) :=
  ⟨reiterate_fail_of_short, expandGo_mark_fail, expandKatakana_leading_mark⟩

/-- C7 (witness): the amended theorem applied at concrete inputs — a chain of
two marks over a one-cluster buffer inside the loop, and a lone leading ヾ. -/
theorem C7_witness :
    reiterate "ヾ" [] ['ン'] = .fail
    ∧ expandGo (2 + 1) ('ヽ' :: ['ヾ']) ["カ"] "" = .fail
    ∧ expandKatakana "ヾン" = .fail :=
  ⟨C7_chain_longer_than_lookback_fails.1 "ヾ" [] ['ン'] (by decide),
    C7_chain_longer_than_lookback_fails.2.1 2 'ヽ' ['ヾ'] ["カ"] "" (Or.inl rfl)
      (by decide) (by decide),
    C7_chain_longer_than_lookback_fails.2.2 ['ン'] (by decide)⟩

/-! ## Claims C8, C9, C10 -/

/-- C8: the accent-code cells `"h"` and `"a"` parse to numeric positions 0 and
1 (src/parse.rs), and accent inference on a pronunciation record with readings
`["カンヨウ", ""]`, those two accents, and no location flags produces — for
every title whose normalize-and-expand does not panic (the source aborts there
first for titles such as ーヽ) — exactly two AccentInfo entries, both reading
カンヨウ (the second reusing the first's resolved reading via the empty-cell
fallback), with accent positions 0 and 1. -/
theorem C8_two_entries_with_fallback (title : String)
    (h : pronNormalize title ≠ KRes.abort) :
    parseJaPronAccentValue "h" = some (.numeric 0)
    ∧ parseJaPronAccentValue "a" = some (.numeric 1)
    ∧ inferAccent title ⟨["カンヨウ", ""], [.numeric 0, .numeric 1], []⟩
        = some [⟨"カンヨウ", some 0⟩, ⟨"カンヨウ", some 1⟩] := by
  refine ⟨by decide, by decide, ?_⟩
  have hcells : procReadings ["カンヨウ", ""] = some [.actual "カンヨウ", .fallback] := by
    decide
  have hinfos : inferAccentInfos title ⟨["カンヨウ", ""], [.numeric 0, .numeric 1], []⟩
      = some [⟨"カンヨウ", some 0⟩, ⟨"カンヨウ", some 1⟩] := by
    cases hpn : pronNormalize title with
    | abort => exact absurd hpn h
    | ok t =>
      simp only [inferAccentInfos, hcells, hpn]
      norm_num
      simp [accentLoop, resolveAccent]
    | fail =>
      simp only [inferAccentInfos, hcells, hpn]
      norm_num
      simp [accentLoop, resolveAccent]
  simp only [inferAccent, hinfos]
  rw [if_pos (by decide)]

/-- C8 (witness): the theorem applied at a concrete title (whose kanji are
rejected by the katakana whitelist, a `.fail`, not a panic). -/
theorem C8_witness :
    inferAccent "慣用" ⟨["カンヨウ", ""], [.numeric 0, .numeric 1], []⟩
      = some [⟨"カンヨウ", some 0⟩, ⟨"カンヨウ", some 1⟩] :=
  (C8_two_entries_with_fallback "慣用" (by decide)).2.2

theorem head_eq_of_take2 (l : List Char) (a b : Char) (h : l.take 2 = [a, b]) :
    l.head? = some a := by
  cases l with
  | nil => simp at h
  | cons x t => simp [List.take] at h ⊢; exact h.1

theorem head_eq_of_take1 (l : List Char) (a : Char) (h : l.take 1 = [a]) :
    l.head? = some a := by
  cases l with
  | nil => simp at h
  | cons x t => simp [List.take] at h ⊢; exact h

/-- The comment-terminator scan: a dash-free body `γ` followed by `-->` is
consumed whole, independently of its content. -/
theorem scanC_append (γ rest : List Char) (hγ : '-' ∉ γ) :
    scanC (γ ++ '-' :: '-' :: '>' :: rest) = some (γ.length + 3) := by
  induction γ with
  | nil => simp [scanC]
  | cons g γ2 ih =>
    have hg : g ≠ '-' := fun hcon => hγ (by simp [hcon])
    have hγ2 : '-' ∉ γ2 := fun hcon => hγ (by simp [hcon])
    simp only [List.cons_append, scanC]
    rw [if_neg (by simp [hg])]
    rw [show γ2.append ('-' :: '-' :: '>' :: rest) = γ2 ++ '-' :: '-' :: '>' :: rest from rfl,
      ih hγ2]
    simp


/-- Splitter step: a `|` scanned at depth zero is a parameter boundary — the
parameter accumulated since `start` is emitted and `start` moves past it. -/
theorem tpGo_pipe_boundary (s : List Char) (fuel : Nat) (st : TPState) (tl : List Char)
    (hdrop : s.drop st.i = '|' :: tl) (hd : st.depth = 0) :
    tpGo s (fuel + 1) st
      = (some ((st.commentless.getD "") ++ ⟨sliceCh s st.start st.i⟩),
        { st with i := st.i + 1, start := st.i + 1, commentless := none }) := by
  simp only [tpGo, hdrop]
  rw [if_pos (by simp [hd])]

/-- Splitter step: a `|` scanned at nonzero depth is not a boundary — the scan
just moves on, depth and all other state unchanged. -/
theorem tpGo_pipe_deep (s : List Char) (fuel : Nat) (st : TPState) (tl : List Char)
    (hdrop : s.drop st.i = '|' :: tl) (hd : st.depth ≠ 0) :
    tpGo s (fuel + 1) st = tpGo s fuel { st with i := st.i + 1 } := by
  simp only [tpGo, hdrop]
  rw [if_neg (by simp [hd])]
  rw [if_neg (by simp), if_neg (by simp), if_neg (by simp), if_neg (by simp), if_neg (by simp)]

/-- Splitter step: a bare single `{` (not followed by another `{`) matches no
arm at all — the depth counter is *not* incremented. -/
theorem tpGo_bare_brace (s : List Char) (fuel : Nat) (st : TPState) (tl : List Char)
    (hdrop : s.drop st.i = '{' :: tl) (hne : tl.head? ≠ some '{') :
    tpGo s (fuel + 1) st = tpGo s fuel { st with i := st.i + 1 } := by
  have h2 : tl.take 2 ≠ ['{', '{'] := fun hc => hne (head_eq_of_take2 tl _ _ hc)
  have h1 : tl.take 1 ≠ ['{'] := fun hc => hne (head_eq_of_take1 tl _ hc)
  simp only [tpGo, hdrop]
  rw [if_neg (by simp), if_neg (by simp [h2]), if_neg (by simp),
    if_neg (by simp [h1]), if_neg (by simp), if_neg (by simp)]

/-- Splitter step: a bare single `}` (not followed by another `}`) matches no
arm — the depth counter is *not* decremented and no failure is latched. -/
theorem tpGo_bare_close (s : List Char) (fuel : Nat) (st : TPState) (tl : List Char)
    (hdrop : s.drop st.i = '}' :: tl) (hne : tl.head? ≠ some '}') :
    tpGo s (fuel + 1) st = tpGo s fuel { st with i := st.i + 1 } := by
  have h2 : tl.take 2 ≠ ['}', '}'] := fun hc => hne (head_eq_of_take2 tl _ _ hc)
  have h1 : tl.take 1 ≠ ['}'] := fun hc => hne (head_eq_of_take1 tl _ hc)
  simp only [tpGo, hdrop]
  rw [if_neg (by simp), if_neg (by simp), if_neg (fun hcon => h2 hcon.2),
    if_neg (by simp), if_neg (fun hcon => h1 hcon.2), if_neg (by simp)]

/-- Splitter step: `{{` (not `{{{`) increments the depth counter, consuming
both characters. -/
theorem tpGo_double_brace (s : List Char) (fuel : Nat) (st : TPState) (tl : List Char)
    (hdrop : s.drop st.i = '{' :: '{' :: tl) (hne : tl.head? ≠ some '{') :
    tpGo s (fuel + 1) st = tpGo s fuel { st with i := st.i + 2, depth := st.depth + 1 } := by
  have h1 : tl.take 1 ≠ ['{'] := fun hc => hne (head_eq_of_take1 tl _ hc)
  simp only [tpGo, hdrop]
  rw [if_neg (by simp),
    if_neg (by simp [show ('{' :: tl).take 2 = '{' :: tl.take 1 from rfl, h1]),
    if_neg (by simp), if_pos (by simp [List.take])]

/-- Splitter step: `[[` increments the depth counter, consuming both
characters. -/
theorem tpGo_double_bracket (s : List Char) (fuel : Nat) (st : TPState) (tl : List Char)
    (hdrop : s.drop st.i = '[' :: '[' :: tl) :
    tpGo s (fuel + 1) st = tpGo s fuel { st with i := st.i + 2, depth := st.depth + 1 } := by
  simp only [tpGo, hdrop]
  rw [if_neg (by simp), if_neg (by simp), if_neg (by simp), if_pos (by simp [List.take])]

/-- Splitter step: `}}` (not `}}}`) at nonzero depth decrements the depth
counter, consuming both characters. -/
theorem tpGo_double_close (s : List Char) (fuel : Nat) (st : TPState) (tl : List Char)
    (hdrop : s.drop st.i = '}' :: '}' :: tl) (hne : tl.head? ≠ some '}') (hd : st.depth ≠ 0) :
    tpGo s (fuel + 1) st = tpGo s fuel { st with i := st.i + 2, depth := st.depth - 1 } := by
  have h1 : tl.take 1 ≠ ['}'] := fun hc => hne (head_eq_of_take1 tl _ hc)
  have h2 : ('}' :: tl).take 2 ≠ ['}', '}'] := fun hc => h1 (by simpa using hc)
  simp only [tpGo, hdrop]
  rw [if_neg (by simp), if_neg (by simp), if_neg (fun hcon => h2 hcon.2),
    if_neg (by simp), if_pos (by simp [List.take]), if_neg hd]

/-- Splitter step: `]]` at nonzero depth decrements the depth counter,
consuming both characters (there is no triple arm for brackets). -/
theorem tpGo_double_bracket_close (s : List Char) (fuel : Nat) (st : TPState) (tl : List Char)
    (hdrop : s.drop st.i = ']' :: ']' :: tl) (hd : st.depth ≠ 0) :
    tpGo s (fuel + 1) st = tpGo s fuel { st with i := st.i + 2, depth := st.depth - 1 } := by
  simp only [tpGo, hdrop]
  rw [if_neg (by simp), if_neg (by simp), if_neg (by simp), if_neg (by simp),
    if_pos (by simp [List.take]), if_neg hd]

/-- Splitter step: the dedicated `\x7b\x7b\x7b` arm fires before the doubled
one — a brace followed by two more braces consumes all three characters and
increments the depth once, whatever follows. -/
theorem tpGo_triple_brace (s : List Char) (fuel : Nat) (st : TPState) (tl : List Char)
    (hdrop : s.drop st.i = '{' :: '{' :: '{' :: tl) :
    tpGo s (fuel + 1) st = tpGo s fuel { st with i := st.i + 3, depth := st.depth + 1 } := by
  simp only [tpGo, hdrop]
  rw [if_neg (by simp), if_pos (by simp [List.take])]

/-- Splitter step: the dedicated `\x7d\x7d\x7d` arm fires before the doubled
one — three closing braces at nonzero depth consume all three characters and
decrement the depth once. -/
theorem tpGo_triple_close (s : List Char) (fuel : Nat) (st : TPState) (tl : List Char)
    (hdrop : s.drop st.i = '}' :: '}' :: '}' :: tl) (hd : st.depth ≠ 0) :
    tpGo s (fuel + 1) st = tpGo s fuel { st with i := st.i + 3, depth := st.depth - 1 } := by
  simp only [tpGo, hdrop]
  rw [if_neg (by simp), if_neg (by simp), if_pos (by simp [List.take]), if_neg hd]

/-- C3 (counterexample): in the Parameter Splitter a `|` enclosed in a *bare
single-brace* pair is still a parameter boundary: the blob `a{b|c}d` splits
into two parameters, not one — bare single braces never move the depth
counter. -/
theorem C3_counterexample :
    tpAll "a\x7bb|c\x7dd" = ["a\x7bb", "c\x7dd"] ∧ tpAll "a\x7bb|c\x7dd" ≠ ["a\x7bb|c\x7dd"] := by decide

/-- C3 (amended): in the Parameter Splitter, a `|` is a parameter boundary
exactly when the nesting depth is zero, but the depth rule is run-based, not
the claim's: standing on a `{`, the splitter first tries the triple arm
(`{{{`: one increment, three characters consumed), then the doubled arm
(`{{`: one increment, two consumed), and a bare single `{` matches no arm at
all; `}` runs mirror this for decrements, and `[[`/`]]` move depth only when
doubled.  Hence a `|` enclosed in a bare single-brace pair (as in `a{b|c}d`)
*is* a parameter boundary, and in `{{{{}}|x` the four-brace run counts as a
triple plus an inert bare brace, so the `}}` returns to depth zero and that
`|` too *is* a boundary. -/
theorem C3_pipe_boundary_iff_depth_zero :
    (∀ (s : List Char) (fuel : Nat) (st : TPState) (tl : List Char),
      s.drop st.i = '|' :: tl → st.depth = 0 →
      tpGo s (fuel + 1) st
        = (some ((st.commentless.getD "") ++ ⟨sliceCh s st.start st.i⟩),
          { st with i := st.i + 1, start := st.i + 1, commentless := none }))
    ∧ (∀ (s : List Char) (fuel : Nat) (st : TPState) (tl : List Char),
      s.drop st.i = '|' :: tl → st.depth ≠ 0 →
      tpGo s (fuel + 1) st = tpGo s fuel { st with i := st.i + 1 })
    ∧ (∀ (s : List Char) (fuel : Nat) (st : TPState) (tl : List Char),
      s.drop st.i = '{' :: tl → tl.head? ≠ some '{' →
      tpGo s (fuel + 1) st = tpGo s fuel { st with i := st.i + 1 })
    ∧ (∀ (s : List Char) (fuel : Nat) (st : TPState) (tl : List Char),
      s.drop st.i = '}' :: tl → tl.head? ≠ some '}' →
      tpGo s (fuel + 1) st = tpGo s fuel { st with i := st.i + 1 })
    ∧ (∀ (s : List Char) (fuel : Nat) (st : TPState) (tl : List Char),
      s.drop st.i = '{' :: '{' :: tl → tl.head? ≠ some '{' →
      tpGo s (fuel + 1) st = tpGo s fuel { st with i := st.i + 2, depth := st.depth + 1 })
    ∧ (∀ (s : List Char) (fuel : Nat) (st : TPState) (tl : List Char),
      s.drop st.i = '[' :: '[' :: tl →
      tpGo s (fuel + 1) st = tpGo s fuel { st with i := st.i + 2, depth := st.depth + 1 })
    ∧ (∀ (s : List Char) (fuel : Nat) (st : TPState) (tl : List Char),
      s.drop st.i = '}' :: '}' :: tl → tl.head? ≠ some '}' → st.depth ≠ 0 →
      tpGo s (fuel + 1) st = tpGo s fuel { st with i := st.i + 2, depth := st.depth - 1 })
    ∧ (∀ (s : List Char) (fuel : Nat) (st : TPState) (tl : List Char),
      s.drop st.i = ']' :: ']' :: tl → st.depth ≠ 0 →
      tpGo s (fuel + 1) st = tpGo s fuel { st with i := st.i + 2, depth := st.depth - 1 })
    ∧ (∀ (s : List Char) (fuel : Nat) (st : TPState) (tl : List Char),
      s.drop st.i = '{' :: '{' :: '{' :: tl →
      tpGo s (fuel + 1) st = tpGo s fuel { st with i := st.i + 3, depth := st.depth + 1 })
    ∧ (∀ (s : List Char) (fuel : Nat) (st : TPState) (tl : List Char),
      s.drop st.i = '}' :: '}' :: '}' :: tl → st.depth ≠ 0 →
      tpGo s (fuel + 1) st = tpGo s fuel { st with i := st.i + 3, depth := st.depth - 1 })
    ∧ tpAll "\x7b\x7b\x7b\x7b\x7d\x7d|x" = ["\x7b\x7b\x7b\x7b\x7d\x7d", "x"]
    ∧ tpAll "x\x7by|z\x7dw" = ["x\x7by", "z\x7dw"] :=
  ⟨tpGo_pipe_boundary, tpGo_pipe_deep, tpGo_bare_brace, tpGo_bare_close,
    tpGo_double_brace, tpGo_double_bracket, tpGo_double_close, tpGo_double_bracket_close,
    tpGo_triple_brace, tpGo_triple_close, by decide, by decide⟩

/-- C3 (witness): the amended theorem applied at concrete inputs — a `|` at
depth zero is emitted as a boundary, and a bare `{` is skipped without a depth
change. -/
theorem C3_witness :
    tpGo "x|y".data (3 + 1) ⟨1, 0, 0, Option.none, false⟩
      = (some ((Option.none.getD "") ++ (⟨sliceCh "x|y".data 0 1⟩ : String)),
        ⟨2, 2, 0, Option.none, false⟩)
    ∧ tpGo "a\x7bb".data (3 + 1) ⟨1, 0, 0, Option.none, false⟩
      = tpGo "a\x7bb".data 3 ⟨2, 0, 0, Option.none, false⟩ :=
  ⟨C3_pipe_boundary_iff_depth_zero.1 "x|y".data 3 ⟨1, 0, 0, Option.none, false⟩ ['y'] rfl rfl,
    C3_pipe_boundary_iff_depth_zero.2.2.1 "a\x7bb".data 3 ⟨1, 0, 0, Option.none, false⟩ ['b']
      rfl (by decide)⟩

/-- C4 (counterexample): comment contents *do* appear in the Template
Scanner's emitted raw argument text: the scanner emits contiguous slices of
the document and never excises comments, so on `{{foo|a<!--x-->b}}` the
emitted raw argument is the literal text `a<!--x-->b`, comment delimiters and
body included. -/
theorem C4_counterexample :
    ftAll "\x7b\x7bfoo|a<!--x-->b\x7d\x7d" = [("foo", "a" ++ "<!--x-->" ++ "b")] := by decide

/-- Scanner step: when the scanning loop itself stands on `<!--`, the comment
arm fires whatever the body contains: the scan jumps past the matching `-->`
(or latches `invalid` when the document ends first), and depth, recorded name
and argument start are untouched — only the cursor moves. -/
theorem ftGo_comment_reach (s : List Char) (fuel : Nat) (st : FTState) (rest : List Char)
    (hdrop : s.drop st.i = '<' :: '!' :: '-' :: '-' :: rest) :
    ftGo s (fuel + 1) st
      = match scanC rest with
        | none => (none, { st with i := s.length, invalid := true })
        | some off => ftGo s fuel { st with i := st.i + 4 + off } := by
  have hdrop4 : s.drop (st.i + 4) = rest := by
    rw [← List.drop_drop 4 st.i s, hdrop]
    rfl
  simp only [ftGo, hdrop, hdrop4]
  rw [if_neg (by simp), if_neg (by simp), if_neg (by simp), if_neg (by simp),
    if_pos (by simp [List.take])]

/-- Scanner step, resolved form: a comment with a dash-free body `γ` is
skipped in one step, the cursor landing just past `-->` and the rest of the
scanner state unchanged. -/
theorem ftGo_comment_skip (s : List Char) (fuel : Nat) (st : FTState) (γ rest : List Char)
    (hdrop : s.drop st.i = '<' :: '!' :: '-' :: '-' :: (γ ++ '-' :: '-' :: '>' :: rest))
    (hγ : '-' ∉ γ) :
    ftGo s (fuel + 1) st = ftGo s fuel { st with i := st.i + 4 + (γ.length + 3) } := by
  have hdrop4 : s.drop (st.i + 4) = γ ++ '-' :: '-' :: '>' :: rest := by
    rw [← List.drop_drop 4 st.i s, hdrop]
    rfl
  simp only [ftGo, hdrop, hdrop4, scanC_append γ rest hγ]
  rw [if_neg (by simp), if_neg (by simp), if_neg (by simp), if_neg (by simp),
    if_pos (by simp [List.take])]

/-- C4 (amended): the comment arm of the Template Scanner's loop skips from
`<!--` to past the matching `-->` leaving depth, recorded name and argument
start unchanged, whatever the comment body contains — but that guarantee only
applies when the loop itself reaches the `<!--`.  The depth-zero name fast
path (`find("\x7d\x7d")` then `find('|')` over raw document text) is not
comment-aware: a comment lying between `\x7b\x7b` and the name terminator can
enter the recorded name, move the argument start and change the depth, as on
`\x7b\x7ba<!--|\x7b\x7b-->b\x7d\x7d`, where the recorded name becomes `a<!--`
and the scan ends at depth 1 with nothing emitted.  And since emissions are
contiguous document slices, comment text appears verbatim both in emitted raw
arguments and in emitted names. -/
theorem C4_comment_skip :
    (∀ (s : List Char) (fuel : Nat) (st : FTState) (rest : List Char),
      s.drop st.i = '<' :: '!' :: '-' :: '-' :: rest →
      ftGo s (fuel + 1) st
        = match scanC rest with
          | none => (none, { st with i := s.length, invalid := true })
          | some off => ftGo s fuel { st with i := st.i + 4 + off })
    ∧ (∀ (s : List Char) (fuel : Nat) (st : FTState) (γ rest : List Char),
      s.drop st.i = '<' :: '!' :: '-' :: '-' :: (γ ++ '-' :: '-' :: '>' :: rest) →
      '-' ∉ γ →
      ftGo s (fuel + 1) st = ftGo s fuel { st with i := st.i + 4 + (γ.length + 3) })
    ∧ ftAll "\x7b\x7bx|p<!--q-->y\x7d\x7d" = [("x", "p" ++ "<!--q-->" ++ "y")]
    ∧ ftAll "\x7b\x7ba<!--x-->|b\x7d\x7d" = [("a" ++ "<!--x-->", "b")]
    ∧ ftNext "\x7b\x7ba<!--|\x7b\x7b-->b\x7d\x7d".data ftInit
        = (none, ⟨16, "a<!--", 8, 1, false⟩)
    ∧ ftAll "\x7b\x7ba<!--|\x7b\x7b-->b\x7d\x7d" = [] :=
  ⟨ftGo_comment_reach, ftGo_comment_skip, by decide, by decide, by decide, by decide⟩

/-- C4 (witness): the amended theorem applied at a concrete input — the
scanner state after skipping `<!--{{-->` (a comment body that would have
changed the depth were it interpreted) is the initial state with only the
cursor moved. -/
theorem C4_witness :
    ftGo "<!--\x7b\x7b-->".data (2 + 1) ftInit
      = ftGo "<!--\x7b\x7b-->".data 2 { ftInit with i := 0 + 4 + (['{', '{'].length + 3) } :=
  C4_comment_skip.2.1 "<!--\x7b\x7b-->".data 2 ftInit ['{', '{'] [] rfl (by decide)

/-- `FindTemplates::next` on an invalidated iterator yields nothing and leaves
the state unchanged. -/
theorem ftNext_invalid (s : List Char) (st : FTState) (h : st.invalid = true) :
    ftNext s st = (none, st) := by
  simp [ftNext, h]

/-- Every successive call on an invalidated iterator yields nothing. -/
theorem ftIterN_invalid (s : List Char) : ∀ (n : Nat) (st : FTState),
    st.invalid = true → ftIterN s n st = none
  | 0, st, h => by simp [ftIterN, ftNext_invalid s st h]
  | n + 1, st, h => by
    simp only [ftIterN, ftNext_invalid s st h]
    exact ftIterN_invalid s n st h

/-- An exhausted (but not invalidated) scanner also yields nothing forever,
with an unchanged state. -/
theorem ftNext_exhausted (s : List Char) (st : FTState) (hdrop : s.drop st.i = [])
    (h : st.invalid = false) : ftNext s st = (none, st) := by
  simp only [ftNext, h, Bool.false_eq_true, if_false]
  simp only [ftGo, hdrop]

theorem ftIterN_exhausted (s : List Char) : ∀ (n : Nat) (st : FTState),
    s.drop st.i = [] → st.invalid = false → ftIterN s n st = none
  | 0, st, hdrop, h => by simp [ftIterN, ftNext_exhausted s st hdrop h]
  | n + 1, st, hdrop, h => by
    simp only [ftIterN, ftNext_exhausted s st hdrop h]
    exact ftIterN_exhausted s n st hdrop h

/-- Scanner step: a closing brace sequence (`}}` or `}}}`) encountered while
the depth is already zero sets the permanent `is_invalid` latch and yields
nothing. -/
theorem ftGo_close_at_zero (s : List Char) (fuel : Nat) (st : FTState) (tl : List Char)
    (hdrop : s.drop st.i = '}' :: '}' :: tl) (hd : st.depth = 0) :
    ∃ st2, ftGo s (fuel + 1) st = (none, st2) ∧ st2.invalid = true := by
  by_cases hc : tl.take 1 = ['}']
  · refine ⟨{ st with i := st.i + 3, invalid := true }, ?_, rfl⟩
    simp only [ftGo, hdrop]
    rw [if_neg (by simp),
      if_pos (by simp [show ('}' :: tl).take 2 = '}' :: tl.take 1 from rfl, hc]), if_pos hd]
  · refine ⟨{ st with i := st.i + 2, invalid := true }, ?_, rfl⟩
    simp only [ftGo, hdrop]
    rw [if_neg (by simp),
      if_neg (by simp [show ('}' :: tl).take 2 = '}' :: tl.take 1 from rfl, hc]),
      if_neg (by simp), if_pos (by simp [List.take]), if_pos hd]

/-- C5: (a) the Template Scanner on `{{foo}}}` yields exactly the valid
leading invocation (name `foo`, empty arguments); (b) an invalidated iterator
yields nothing with an unchanged state, so (c) every subsequent call after
invalidation yields nothing; (d) whenever the scanning loop meets a closing
brace sequence at depth zero it yields nothing and latches `is_invalid`
permanently; and (e) on `{{foo}}}` every call after the first yields nothing.
The embedding is total — the source's checked subtraction never panics. -/
theorem C5_unbalanced_close_is_terminal :
    ftAll "\x7b\x7bfoo\x7d\x7d\x7d" = [("foo", "")]
    ∧ (∀ (s : List Char) (st : FTState), st.invalid = true → ftNext s st = (none, st))
    ∧ (∀ (s : List Char) (n : Nat) (st : FTState), st.invalid = true →
        ftIterN s n st = none)
    ∧ (∀ (s : List Char) (fuel : Nat) (st : FTState) (tl : List Char),
        s.drop st.i = '}' :: '}' :: tl → st.depth = 0 →
        ∃ st2, ftGo s (fuel + 1) st = (none, st2) ∧ st2.invalid = true)
    ∧ (∀ n : Nat, ftIterN "\x7b\x7bfoo\x7d\x7d\x7d".data (n + 1) ftInit = none) := by
  refine ⟨by decide, ftNext_invalid, fun s n st h => ftIterN_invalid s n st h,
    ftGo_close_at_zero, ?_⟩
  intro n
  have hst1 : (ftNext "\x7b\x7bfoo\x7d\x7d\x7d".data ftInit).2 = ⟨7, "", 6, 0, false⟩ := by decide
  simp only [ftIterN, hst1]
  cases n with
  | zero => decide
  | succ m =>
    have hst2 : (ftNext "\x7b\x7bfoo\x7d\x7d\x7d".data ⟨7, "", 6, 0, false⟩).2 = ⟨8, "", 6, 0, false⟩ := by
      decide
    simp only [ftIterN, hst2]
    exact ftIterN_exhausted _ m _ (by decide) rfl

/-- C5 (witness): the invalidation clause applied at a concrete input — the
scanner state scanning `}}` at depth zero yields nothing with the latch set. -/
theorem C5_witness :
    ∃ st2, ftGo "\x7d\x7dx".data (1 + 1) ftInit = (none, st2) ∧ st2.invalid = true :=
  C5_unbalanced_close_is_terminal.2.2.2.1 "\x7d\x7dx".data 1 ftInit ['x'] rfl rfl
